import Mathlib

/-!
Verification of the host-side pthread emulation of avr-libc's
`<util/atomic.h>` (repository files `atomic.h` and `atomic.c`).

Shallow embedding notes.

Global state: `_atomic_mutex` is a process-wide recursive pthread mutex
(`PTHREAD_RECURSIVE_MUTEX_INITIALIZER_NP`), and `_atomic_count` is a
`uint32_t` initialized to 0.  On a single thread of control the mutex is
modelled by its hold count (`mutex : Nat`): `pthread_mutex_lock` on a
recursive mutex held by the caller increments the hold count,
`pthread_mutex_unlock` decrements it, and unlocking a recursive mutex that
is not held fails with EPERM and leaves the mutex unchanged (modelled by
Nat truncated subtraction).  `_atomic_count` arithmetic is modulo 2^32.
`warnings` counts the diagnostic lines written to stderr.

The block macros: `ATOMIC_BLOCK(type)` expands to
`for ( type, __ToDo = __iCliRetVal(sreg_save); __ToDo; __ToDo = 0 )`,
where `type` is one of the policy macros declaring
`uint8_t sreg_save __attribute__((__cleanup__(handler))) = v`:
`v = 0` for `ATOMIC_RESTORESTATE` and `NONATOMIC_RESTORESTATE`,
`v = 1` for `ATOMIC_FORCEON` and `NONATOMIC_FORCEOFF`; the cleanup
handler (`__iSeiParam` for atomic blocks, `__iCliParam` for non-atomic
blocks) runs exactly once when `sreg_save` goes out of scope, on every
exit path.  `NONATOMIC_BLOCK` is the dual with `__iSeiRetVal` on entry.

For the concurrency claim, `__cli`/`__sei` are decomposed into
interleaving-level micro-instructions over a shared recursive mutex whose
semantics (block while another thread owns it, reentrant for the owner,
EPERM no-op when unlocking without owning) is the documented pthread
recursive-mutex contract.
-/

/-- Modulus of the `uint32_t` counter `_atomic_count`. -/
def A32 : Nat := 4294967296

/-- Observable actions of `__sei`/`__cli`, in program order: taking the
mutex, releasing it, storing a new value of `_atomic_count`, and writing
the diagnostic line to stderr. -/
inductive Ev where
  | lockEv : Ev
  | unlockEv : Ev
  | setCount : Nat → Ev
  | warnEv : Ev
deriving DecidableEq

/-- Single-thread view of the global state: recursive-mutex hold count,
the `uint32_t` counter `_atomic_count`, and the number of diagnostic
lines written so far. -/
structure AtomicState where
  mutex : Nat
  count : Nat
  warnings : Nat
deriving DecidableEq

/-- The function `__sei(uint8_t type)` from `atomic.h`:
`if(--_atomic_count && type) fprintf(stderr, ...); pthread_mutex_unlock(&_atomic_mutex);`
Returns the new state together with the ordered observable actions. -/
def sei (type : Bool) (s : AtomicState) : AtomicState × List Ev :=
  let c := (s.count + (A32 - 1)) % A32
  let warn := (c != 0) && type
  ({ mutex := s.mutex - 1, count := c,
     warnings := s.warnings + (if warn then 1 else 0) },
   [Ev.setCount c] ++ (if warn then [Ev.warnEv] else []) ++ [Ev.unlockEv])

/-- The function `__cli(uint8_t type)` from `atomic.h`:
`pthread_mutex_lock(&_atomic_mutex); if(_atomic_count++ && type) fprintf(stderr, ...);`
Returns the new state together with the ordered observable actions. -/
def cli (type : Bool) (s : AtomicState) : AtomicState × List Ev :=
  let c := (s.count + 1) % A32
  let warn := (s.count != 0) && type
  ({ mutex := s.mutex + 1, count := c,
     warnings := s.warnings + (if warn then 1 else 0) },
   [Ev.lockEv, Ev.setCount c] ++ (if warn then [Ev.warnEv] else []))

/-- State effect of `__sei`. -/
def seiS (type : Bool) (s : AtomicState) : AtomicState := (sei type s).1

/-- State effect of `__cli`. -/
def cliS (type : Bool) (s : AtomicState) : AtomicState := (cli type s).1

/-- The four block policies of `atomic.h`. -/
inductive Policy where
  | atomicRestore : Policy
  | atomicForceOn : Policy
  | nonatomicRestore : Policy
  | nonatomicForceOff : Policy
deriving DecidableEq

/-- Initializer of the `sreg_save` byte declared by each policy macro:
`0` (false) for `ATOMIC_RESTORESTATE` and `NONATOMIC_RESTORESTATE`,
`1` (true) for `ATOMIC_FORCEON` and `NONATOMIC_FORCEOFF`.  This byte is
the `type` argument handed to `__cli`/`__sei`. -/
def sregSave : Policy → Bool
  | Policy.atomicRestore => false
  | Policy.atomicForceOn => true
  | Policy.nonatomicRestore => false
  | Policy.nonatomicForceOff => true

/-- Whether the policy belongs to `ATOMIC_BLOCK` (entry `__cli`) rather
than `NONATOMIC_BLOCK` (entry `__sei`). -/
def isAtomicBlock : Policy → Bool
  | Policy.atomicRestore => true
  | Policy.atomicForceOn => true
  | Policy.nonatomicRestore => false
  | Policy.nonatomicForceOff => false

/-- Block entry: `ATOMIC_BLOCK` calls `__iCliRetVal(sreg_save)`, i.e.
`__cli(sreg_save)`; `NONATOMIC_BLOCK` calls `__iSeiRetVal(sreg_save)`,
i.e. `__sei(sreg_save)`. -/
def enterBlock (p : Policy) (s : AtomicState) : AtomicState :=
  if isAtomicBlock p then cliS (sregSave p) s else seiS (sregSave p) s

/-- Scope exit: the `__cleanup__` handler attached to `sreg_save` —
`__iSeiParam` (i.e. `__sei(sreg_save)`) for atomic blocks,
`__iCliParam` (i.e. `__cli(sreg_save)`) for non-atomic blocks. -/
def exitBlock (p : Policy) (s : AtomicState) : AtomicState :=
  if isAtomicBlock p then seiS (sregSave p) s else cliS (sregSave p) s

/-- The lock-and-counter part of the state (everything except the
diagnostic output). -/
def lockCount (s : AtomicState) : Nat × Nat := (s.mutex, s.count)

/-- Well-nested single-thread programs built from guarded blocks. -/
inductive Prog where
  | leaf : Prog
  | seq : Prog → Prog → Prog
  | block : Policy → Prog → Prog

/-- Run a well-nested program: each block performs its entry action, its
body, then its cleanup action. -/
def runProg : Prog → AtomicState → AtomicState
  | Prog.leaf, s => s
  | Prog.seq a b, s => runProg b (runProg a s)
  | Prog.block p body, s => exitBlock p (runProg body (enterBlock p s))

/-- Minimal mutex hold count needed at entry so that the program never
unlocks an unheld mutex (a `NONATOMIC_BLOCK` entry releases the mutex
before its body). -/
def need : Prog → Nat
  | Prog.leaf => 0
  | Prog.seq a b => max (need a) (need b)
  | Prog.block p body => if isAtomicBlock p then need body - 1 else need body + 1

/-- Result of one execution of a guarded block's body: either it falls
through normally or it leaves the scope early (return, goto, error
propagation). -/
inductive BodyRes where
  | done : AtomicState → BodyRes
  | early : AtomicState → BodyRes

/-- The state in which the body left the scope. -/
def BodyRes.state : BodyRes → AtomicState
  | BodyRes.done s => s
  | BodyRes.early s => s

/-- The `for` loop of `ATOMIC_BLOCK`/`NONATOMIC_BLOCK` after the entry
call: `for ( ...; __ToDo; __ToDo = 0 ) body` with `__ToDo` initially 1.
Returns the state at scope exit, whether the body left early, and the
number of times the body ran. -/
def forLoop (body : AtomicState → BodyRes) : Nat → AtomicState → AtomicState × Bool × Nat
  | 0, s => (s, false, 0)
  | _ + 1, s =>
    match body s with
    | BodyRes.early s1 => (s1, true, 1)
    | BodyRes.done s1 =>
      let r := forLoop body 0 s1
      (r.1, r.2.1, r.2.2 + 1)

/-- A full guarded block: the policy macro declares `sreg_save` with its
cleanup handler, the loop entry runs `__iCliRetVal`/`__iSeiRetVal`, the
body runs inside the loop, and when control leaves the scope — through
the loop's normal termination or through an early exit out of the body —
the cleanup handler runs exactly once (the guarantee of GCC's
`__cleanup__` attribute). -/
def runGuard (p : Policy) (body : AtomicState → BodyRes) (s : AtomicState) :
    AtomicState × Bool × Nat :=
  let r := forLoop body 1 (enterBlock p s)
  (exitBlock p r.1, r.2.1, r.2.2)

/-- Interleaving-level micro-instructions of `__cli`/`__sei`: take the
mutex, release it, increment `_atomic_count`, decrement `_atomic_count`. -/
inductive Instr where
  | lockI : Instr
  | unlockI : Instr
  | incI : Instr
  | decI : Instr
deriving DecidableEq

/-- Micro-instructions of `__cli`: lock, then increment the counter. -/
def cliInstrs : List Instr := [Instr.lockI, Instr.incI]

/-- Micro-instructions of `__sei`: decrement the counter, then unlock. -/
def seiInstrs : List Instr := [Instr.decI, Instr.unlockI]

/-- Instruction stream of a well-nested program of guarded blocks, as
executed by one thread. -/
def flatProg : Prog → List Instr
  | Prog.leaf => []
  | Prog.seq a b => flatProg a ++ flatProg b
  | Prog.block p body =>
    if isAtomicBlock p then cliInstrs ++ (flatProg body ++ seiInstrs)
    else seiInstrs ++ (flatProg body ++ cliInstrs)

/-- Configuration of `n` threads sharing the recursive mutex and the
counter.  `owner`/`holds` model the pthread recursive mutex (at most one
owning thread, with a recursion depth); `cnt` is `_atomic_count`;
`acq i` is a ghost counter of the acquisitions thread `i` currently
holds; `progs i` is the remaining instruction stream of thread `i`. -/
structure MConf (n : Nat) where
  owner : Option (Fin n)
  holds : Nat
  cnt : Nat
  acq : Fin n → Nat
  progs : Fin n → List Instr

/-- One interleaving step by thread `i`, following the pthread
recursive-mutex contract: `lock` succeeds when the mutex is free or
already owned by `i` (and blocks otherwise — no rule applies); `unlock`
by the owner drops one recursion level; `unlock` by a non-owner fails
with EPERM and changes nothing; the counter updates are plain memory
writes and are possible regardless of who owns the mutex. -/
inductive MStep {n : Nat} : Fin n → MConf n → MConf n → Prop where
  | lockFree (i : Fin n) (c : MConf n) (rest : List Instr)
      (hp : c.progs i = Instr.lockI :: rest) (ho : c.owner = none) :
      MStep i c ⟨some i, c.holds + 1, c.cnt,
        Function.update c.acq i (c.acq i + 1), Function.update c.progs i rest⟩
  | lockOwn (i : Fin n) (c : MConf n) (rest : List Instr)
      (hp : c.progs i = Instr.lockI :: rest) (ho : c.owner = some i) :
      MStep i c ⟨some i, c.holds + 1, c.cnt,
        Function.update c.acq i (c.acq i + 1), Function.update c.progs i rest⟩
  | unlockOwn (i : Fin n) (c : MConf n) (rest : List Instr)
      (hp : c.progs i = Instr.unlockI :: rest) (ho : c.owner = some i) :
      MStep i c ⟨if c.holds ≤ 1 then none else some i, c.holds - 1, c.cnt,
        Function.update c.acq i (c.acq i - 1), Function.update c.progs i rest⟩
  | unlockErr (i : Fin n) (c : MConf n) (rest : List Instr)
      (hp : c.progs i = Instr.unlockI :: rest) (ho : c.owner ≠ some i) :
      MStep i c ⟨c.owner, c.holds, c.cnt, c.acq, Function.update c.progs i rest⟩
  | incStep (i : Fin n) (c : MConf n) (rest : List Instr)
      (hp : c.progs i = Instr.incI :: rest) :
      MStep i c ⟨c.owner, c.holds, (c.cnt + 1) % A32, c.acq,
        Function.update c.progs i rest⟩
  | decStep (i : Fin n) (c : MConf n) (rest : List Instr)
      (hp : c.progs i = Instr.decI :: rest) :
      MStep i c ⟨c.owner, c.holds, (c.cnt + (A32 - 1)) % A32, c.acq,
        Function.update c.progs i rest⟩

/-- Reachability under interleaving: some thread takes a step. -/
def MReach {n : Nat} : MConf n → MConf n → Prop :=
  Relation.ReflTransGen (fun a b => ∃ i, MStep i a b)

/-- Well-formed continuation of one thread: starting from `k` held
acquisitions, the stream only touches the counter or unlocks while at
least one acquisition is held. -/
def wfFrom : List Instr → Nat → Bool
  | [], _ => true
  | Instr.lockI :: r, k => wfFrom r (k + 1)
  | Instr.incI :: r, k => decide (1 ≤ k) && wfFrom r k
  | Instr.decI :: r, k => decide (1 ≤ k) && wfFrom r k
  | Instr.unlockI :: r, k => decide (1 ≤ k) && wfFrom r (k - 1)

/-- Number of acquisitions thread `i` holds according to the mutex. -/
def localHolds {n : Nat} (c : MConf n) (i : Fin n) : Nat :=
  if c.owner = some i then c.holds else 0

/-- System invariant: the mutex is free exactly when its recursion depth
is 0, the ghost acquisition counters agree with the mutex, and every
thread's remaining stream is well-formed for the acquisitions it holds. -/
def MInv {n : Nat} (c : MConf n) : Prop :=
  (c.owner = none ↔ c.holds = 0) ∧
  (∀ i, c.acq i = localHolds c i) ∧
  (∀ i, wfFrom (c.progs i) (localHolds c i) = true)

/-- Initial configuration used as the concrete instance for the
concurrency claim: one thread about to run one `ATOMIC_BLOCK(ATOMIC_FORCEON)`. -/
def w8conf : MConf 1 :=
  ⟨none, 0, 0, fun _ => 0, fun _ => flatProg (Prog.block Policy.atomicForceOn Prog.leaf)⟩

theorem mod_dec_inc (c : Nat) (h : c < A32) : ((c + (A32 - 1)) % A32 + 1) % A32 = c := by
  simp only [A32] at *
  omega

theorem mod_inc_dec (c : Nat) (h : c < A32) : ((c + 1) % A32 + (A32 - 1)) % A32 = c := by
  simp only [A32] at *
  omega

theorem seiS_mutex (t : Bool) (s : AtomicState) : (seiS t s).mutex = s.mutex - 1 := rfl

theorem cliS_mutex (t : Bool) (s : AtomicState) : (cliS t s).mutex = s.mutex + 1 := rfl

theorem seiS_count (t : Bool) (s : AtomicState) :
    (seiS t s).count = (s.count + (A32 - 1)) % A32 := rfl

theorem cliS_count (t : Bool) (s : AtomicState) :
    (cliS t s).count = (s.count + 1) % A32 := rfl

theorem seiS_warnings (t : Bool) (s : AtomicState) :
    (seiS t s).warnings =
      s.warnings + (if (((s.count + (A32 - 1)) % A32 != 0) && t) then 1 else 0) := rfl

theorem cliS_warnings (t : Bool) (s : AtomicState) :
    (cliS t s).warnings = s.warnings + (if ((s.count != 0) && t) then 1 else 0) := rfl

theorem cli_fst (t : Bool) (s : AtomicState) : (cli t s).1 = cliS t s := rfl

theorem sei_fst (t : Bool) (s : AtomicState) : (sei t s).1 = seiS t s := rfl

theorem cli_snd (t : Bool) (s : AtomicState) :
    (cli t s).2 = [Ev.lockEv, Ev.setCount ((s.count + 1) % A32)] ++
      (if ((s.count != 0) && t) then [Ev.warnEv] else []) := rfl

theorem sei_snd (t : Bool) (s : AtomicState) :
    (sei t s).2 = [Ev.setCount ((s.count + (A32 - 1)) % A32)] ++
      (if (((s.count + (A32 - 1)) % A32 != 0) && t) then [Ev.warnEv] else []) ++
      [Ev.unlockEv] := rfl

/-- Claim C1 (counterexample): `ATOMIC_RESTORESTATE` declares
`sreg_save = 0`, so the guard's entry is `__cli(0)`, not `Acquire(true)`
as the claim states: entering Atomic/Restore from a nested state emits no
diagnostic, while `__cli(1)` does. -/
theorem c1_cex :
    enterBlock Policy.atomicRestore ⟨0, 1, 0⟩ ≠ cliS true ⟨0, 1, 0⟩ ∧
    sregSave Policy.atomicRestore = false := by
  constructor
  · decide
  · rfl

/-- Claim C1 (amended): every policy's guard calls `__cli` on entry and
`__sei` on exit (the other way round for non-atomic blocks) with the
`sreg_save` byte as the diagnostic argument, but that byte is true only
for the Force-family policies (`ATOMIC_FORCEON`, `NONATOMIC_FORCEOFF`)
and false for the Restore-family policies, whose entry and exit
therefore never emit the nesting diagnostic. -/
theorem c1_guard_diag (p : Policy) (s : AtomicState) :
    sregSave p = (decide (p = Policy.atomicForceOn) || decide (p = Policy.nonatomicForceOff)) ∧
    (enterBlock Policy.atomicRestore s).warnings = s.warnings ∧
    (exitBlock Policy.atomicRestore s).warnings = s.warnings ∧
    (enterBlock Policy.nonatomicRestore s).warnings = s.warnings ∧
    (exitBlock Policy.nonatomicRestore s).warnings = s.warnings := by
  refine ⟨by cases p <;> rfl, ?_, ?_, ?_, ?_⟩
  · show (cliS false s).warnings = s.warnings
    rw [cliS_warnings]
    simp
  · show (seiS false s).warnings = s.warnings
    rw [seiS_warnings]
    simp
  · show (seiS false s).warnings = s.warnings
    rw [seiS_warnings]
    simp
  · show (cliS false s).warnings = s.warnings
    rw [cliS_warnings]
    simp

/-- Claim C2 (counterexample): an Atomic/ForceOn section entered while
the lock is already held (hold count 1) ends with the lock still held
(hold count 1) after the guard's exit action: the single unlock of the
recursive mutex only drops one recursion level, so the flag is not in
the declared forced (unlocked) state. -/
theorem c2_cex :
    (exitBlock Policy.atomicForceOn (enterBlock Policy.atomicForceOn ⟨1, 1, 0⟩)).mutex = 1 ∧
    ¬ (exitBlock Policy.atomicForceOn (enterBlock Policy.atomicForceOn ⟨1, 1, 0⟩)).mutex = 0 := by
  constructor
  · decide
  · decide

/-- Claim C2 (amended): the Force-policy exit action never reads lock
state captured at entry — the captured byte is the constant diagnostic
flag and the lock transition of `__sei`/`__cli` is independent of it.
After an Atomic/ForceOn section the mutex hold count returns to its
entry value, so the flag is unlocked after exit exactly when the lock
was not held at entry; a Non-atomic/ForceOff section always ends with
the lock held. -/
theorem c2_force_exit (s : AtomicState) :
    (exitBlock Policy.atomicForceOn (enterBlock Policy.atomicForceOn s)).mutex = s.mutex ∧
    1 ≤ (exitBlock Policy.nonatomicForceOff (enterBlock Policy.nonatomicForceOff s)).mutex ∧
    (∀ t u : Bool, (seiS t s).mutex = (seiS u s).mutex ∧ (cliS t s).mutex = (cliS u s).mutex) := by
  refine ⟨?_, ?_, fun t u => ⟨by rw [seiS_mutex, seiS_mutex], by rw [cliS_mutex, cliS_mutex]⟩⟩
  · show (seiS true (cliS true s)).mutex = s.mutex
    rw [seiS_mutex, cliS_mutex]
    omega
  · show 1 ≤ (cliS true (seiS true s)).mutex
    rw [cliS_mutex]
    omega

/-- Claim C3 (counterexample): when `_atomic_count` is 4294967295, the
call `__cli(1)` emits the diagnostic (the tested pre-increment value is
nonzero) although the post-increment value stored in the `uint32_t`
counter wraps to 0 and is not greater than 1. -/
theorem c3_cex :
    (cliS true ⟨0, 4294967295, 0⟩).warnings = 1 ∧
    ¬ 1 < (cliS true ⟨0, 4294967295, 0⟩).count := by
  constructor
  · decide
  · decide

/-- Claim C3 (amended): every call to `__cli` takes the lock and then
increments `_atomic_count` modulo 2^32 (in that order); the diagnostic
is written if and only if the `type` argument is true and the
pre-increment counter is nonzero — which coincides with "post-increment
value greater than 1" except when the increment wraps from 2^32 - 1 to
0, where the warning is still emitted; the operation never fails (it is
a total state transformation that at most adds one warning line). -/
theorem c3_cli_diag (t : Bool) (s : AtomicState) :
    (cli t s).2 = [Ev.lockEv, Ev.setCount ((s.count + 1) % A32)] ++
      (if t = true ∧ s.count ≠ 0 then [Ev.warnEv] else []) ∧
    (cli t s).1.warnings = s.warnings + (if t = true ∧ s.count ≠ 0 then 1 else 0) ∧
    ((cli t s).1.warnings = s.warnings + 1 ↔ (t = true ∧ s.count ≠ 0)) := by
  cases t <;> by_cases hc : s.count = 0 <;>
    simp [cli_snd, cli_fst, cliS_warnings, hc]

/-- Claim C4 (confirmed): for every `__sei` call with pre-call counter at
least 1 (and below 2^32, the `uint32_t` range), the counter is
decremented first, the diagnostic is emitted if and only if `type` is
true and the pre-decrement counter was greater than 1, and the mutex
unlock is the last action, after the decrement and the diagnostic
check. -/
theorem c4_sei_release (t : Bool) (s : AtomicState) (h1 : 1 ≤ s.count) (h2 : s.count < A32) :
    (sei t s).2 = [Ev.setCount (s.count - 1)] ++
      (if t = true ∧ 1 < s.count then [Ev.warnEv] else []) ++ [Ev.unlockEv] ∧
    (sei t s).1.count = s.count - 1 ∧
    (sei t s).1.warnings = s.warnings + (if t = true ∧ 1 < s.count then 1 else 0) := by
  have hdec : (s.count + (A32 - 1)) % A32 = s.count - 1 := by
    simp only [A32] at *
    omega
  rw [sei_snd, sei_fst, seiS_count, seiS_warnings, hdec]
  by_cases hlt : 1 < s.count
  · have hne : s.count - 1 ≠ 0 := by omega
    cases t <;> simp [hne, hlt]
  · have heq : s.count - 1 = 0 := by omega
    cases t <;> simp [heq, hlt]

/-- Claim C4 (witness): instance of `c4_sei_release` at `type = 1` and
state (mutex held once, counter 2, no warnings yet). -/
theorem c4_sei_release_witness :
    (1 ≤ (2 : Nat) ∧ (2 : Nat) < A32) ∧
    ((sei true ⟨1, 2, 0⟩).2 = [Ev.setCount ((2 : Nat) - 1)] ++
        (if true = true ∧ 1 < (2 : Nat) then [Ev.warnEv] else []) ++ [Ev.unlockEv] ∧
      (sei true ⟨1, 2, 0⟩).1.count = (2 : Nat) - 1 ∧
      (sei true ⟨1, 2, 0⟩).1.warnings = 0 + (if true = true ∧ 1 < (2 : Nat) then 1 else 0)) :=
  ⟨⟨by decide, by decide⟩, c4_sei_release true ⟨1, 2, 0⟩ (by decide) (by decide)⟩

theorem runProg_count (pr : Prog) :
    ∀ s : AtomicState, s.count < A32 → (runProg pr s).count = s.count := by
  induction pr with
  | leaf => intro s _; rfl
  | seq a b iha ihb =>
    intro s h
    show (runProg b (runProg a s)).count = s.count
    have ha := iha s h
    rw [ihb _ (by rw [ha]; exact h), ha]
  | block p body ih =>
    intro s h
    show (exitBlock p (runProg body (enterBlock p s))).count = s.count
    have hpos : 0 < A32 := by decide
    by_cases hp : isAtomicBlock p = true
    · have he : enterBlock p s = cliS (sregSave p) s := by simp [enterBlock, hp]
      have hx : exitBlock p (runProg body (enterBlock p s)) =
          seiS (sregSave p) (runProg body (enterBlock p s)) := by simp [exitBlock, hp]
      have h1 : (cliS (sregSave p) s).count = (s.count + 1) % A32 := cliS_count _ _
      have h2 : (cliS (sregSave p) s).count < A32 := by rw [h1]; exact Nat.mod_lt _ hpos
      rw [hx, seiS_count, he, ih _ h2, h1, mod_inc_dec s.count h]
    · have he : enterBlock p s = seiS (sregSave p) s := by simp [enterBlock, hp]
      have hx : exitBlock p (runProg body (enterBlock p s)) =
          cliS (sregSave p) (runProg body (enterBlock p s)) := by simp [exitBlock, hp]
      have h1 : (seiS (sregSave p) s).count = (s.count + (A32 - 1)) % A32 := seiS_count _ _
      have h2 : (seiS (sregSave p) s).count < A32 := by rw [h1]; exact Nat.mod_lt _ hpos
      rw [hx, cliS_count, he, ih _ h2, h1, mod_dec_inc s.count h]

theorem runProg_mutex (pr : Prog) :
    ∀ s : AtomicState, need pr ≤ s.mutex → (runProg pr s).mutex = s.mutex := by
  induction pr with
  | leaf => intro s _; rfl
  | seq a b iha ihb =>
    intro s h
    simp only [need, max_le_iff] at h
    show (runProg b (runProg a s)).mutex = s.mutex
    have ha := iha s h.1
    rw [ihb _ (by rw [ha]; exact h.2), ha]
  | block p body ih =>
    intro s h
    simp only [need] at h
    show (exitBlock p (runProg body (enterBlock p s))).mutex = s.mutex
    by_cases hp : isAtomicBlock p = true
    · rw [if_pos hp] at h
      have he : enterBlock p s = cliS (sregSave p) s := by simp [enterBlock, hp]
      have hx : exitBlock p (runProg body (enterBlock p s)) =
          seiS (sregSave p) (runProg body (enterBlock p s)) := by simp [exitBlock, hp]
      have hm : (cliS (sregSave p) s).mutex = s.mutex + 1 := cliS_mutex _ _
      rw [hx, seiS_mutex, he, ih _ (by rw [hm]; omega), hm]
      omega
    · rw [if_neg hp] at h
      have he : enterBlock p s = seiS (sregSave p) s := by simp [enterBlock, hp]
      have hx : exitBlock p (runProg body (enterBlock p s)) =
          cliS (sregSave p) (runProg body (enterBlock p s)) := by simp [exitBlock, hp]
      have hm : (seiS (sregSave p) s).mutex = s.mutex - 1 := seiS_mutex _ _
      rw [hx, cliS_mutex, he, ih _ (by rw [hm]; omega), hm]
      omega

/-- Claim C5 (counterexample): a well-nested sequence consisting of a
single Non-atomic/Restore section executed with the lock not held
(hold count 0) leaves the lock held (hold count 1) after the outermost
section exits: the entry `__sei`'s unlock of the unheld recursive mutex
is an EPERM no-op, while the exit `__cli` locks it. -/
theorem c5_cex :
    (runProg (Prog.block Policy.nonatomicRestore Prog.leaf) ⟨0, 0, 0⟩).mutex = 1 ∧
    ¬ (runProg (Prog.block Policy.nonatomicRestore Prog.leaf) ⟨0, 0, 0⟩).mutex = 0 := by
  constructor
  · decide
  · decide

/-- Claim C5 (amended): for every well-nested single-thread sequence of
Atomic and Non-atomic sections whose Non-atomic exposure never exceeds
the lock hold count at entry (in particular whenever every Non-atomic
section is nested inside an Atomic section), the mutex hold count and
the depth counter after the outermost section exits equal their values
before entry; each guard performs exactly one entry call and one exit
call.  A Non-atomic section whose entry releases an unheld lock (an
unmatched Release, a caller contract violation per the spec) breaks the
lock-state half of the roundtrip. -/
theorem c5_roundtrip (pr : Prog) (s : AtomicState) (hc : s.count < A32)
    (hm : need pr ≤ s.mutex) :
    (runProg pr s).mutex = s.mutex ∧ (runProg pr s).count = s.count :=
  ⟨runProg_mutex pr s hm, runProg_count pr s hc⟩

/-- Claim C5 (witness): instance of `c5_roundtrip` for a Non-atomic
section nested inside an Atomic section, entered with the lock free and
counter 5. -/
theorem c5_roundtrip_witness :
    ((5 : Nat) < A32 ∧
      need (Prog.block Policy.atomicRestore (Prog.block Policy.nonatomicForceOff Prog.leaf)) ≤ 0) ∧
    ((runProg (Prog.block Policy.atomicRestore
        (Prog.block Policy.nonatomicForceOff Prog.leaf)) ⟨0, 5, 0⟩).mutex = 0 ∧
      (runProg (Prog.block Policy.atomicRestore
        (Prog.block Policy.nonatomicForceOff Prog.leaf)) ⟨0, 5, 0⟩).count = 5) :=
  ⟨⟨by decide, by decide⟩,
   c5_roundtrip (Prog.block Policy.atomicRestore (Prog.block Policy.nonatomicForceOff Prog.leaf))
     ⟨0, 5, 0⟩ (by decide) (by decide)⟩

/-- Claim C6 (confirmed): in the nested trace enter-atomic, enter-atomic,
exit inner, exit outer from counter 0, with both sections in the
non-reentrant diagnostic mode (`sreg_save = 1`, as `ATOMIC_FORCEON`
declares it), exactly one warning is emitted at the inner acquire and
one at the inner release (warning totals 0, 1, 2, 2 along the trace),
none at the outer acquire or outer release; and when the inner section
uses the reentrant-aware mode (`sreg_save = 0`, as `ATOMIC_RESTORESTATE`
declares it), no diagnostic at all is emitted. -/
theorem c6_nested_diag :
    (enterBlock Policy.atomicForceOn ⟨0, 0, 0⟩).warnings = 0 ∧
    (enterBlock Policy.atomicForceOn (enterBlock Policy.atomicForceOn ⟨0, 0, 0⟩)).warnings = 1 ∧
    (exitBlock Policy.atomicForceOn (enterBlock Policy.atomicForceOn
      (enterBlock Policy.atomicForceOn ⟨0, 0, 0⟩))).warnings = 2 ∧
    (exitBlock Policy.atomicForceOn (exitBlock Policy.atomicForceOn
      (enterBlock Policy.atomicForceOn (enterBlock Policy.atomicForceOn ⟨0, 0, 0⟩)))).warnings = 2 ∧
    (exitBlock Policy.atomicForceOn (exitBlock Policy.atomicRestore
      (enterBlock Policy.atomicRestore (enterBlock Policy.atomicForceOn ⟨0, 0, 0⟩)))).warnings = 0 := by
  refine ⟨?_, ?_, ?_, ?_, ?_⟩ <;> decide

/-- Claim C7 (confirmed): for every policy, every body and every entry
state, the guarded block runs its body exactly once, and — whether the
body falls through normally or leaves the scope early — the final state
is the cleanup action applied exactly once to the state in which the
body left the scope (the `__cleanup__` handler attached to `sreg_save`
runs once on every exit path, never zero times and never twice). -/
theorem c7_guard_once (p : Policy) (body : AtomicState → BodyRes) (s : AtomicState) :
    (runGuard p body s).2.2 = 1 ∧
    (runGuard p body s).1 = exitBlock p (BodyRes.state (body (enterBlock p s))) := by
  cases h : body (enterBlock p s) <;>
    simp [runGuard, forLoop, h, BodyRes.state]

theorem localHolds_none {n : Nat} {a : MConf n} (h : a.owner = none) (j : Fin n) :
    localHolds a j = 0 := by
  simp [localHolds, h]

theorem localHolds_self {n : Nat} {a : MConf n} {i : Fin n} (h : a.owner = some i) :
    localHolds a i = a.holds := by
  simp [localHolds, h]

theorem localHolds_other {n : Nat} {a : MConf n} {i j : Fin n} (h : a.owner = some i)
    (hj : j ≠ i) : localHolds a j = 0 := by
  simp [localHolds, h, Option.some.injEq, Ne.symm hj]

set_option maxRecDepth 4096 in
theorem minv_step {n : Nat} {i : Fin n} {a b : MConf n} (hs : MStep i a b) (ha : MInv a) :
    MInv b := by
  obtain ⟨hio, hacq, hwf⟩ := ha
  cases hs with
  | lockFree rest hp ho =>
    have h0 : a.holds = 0 := hio.mp ho
    refine ⟨by simp, ?_, ?_⟩
    · intro j
      by_cases hj : j = i
      · subst hj
        have hz := hacq j
        rw [localHolds_none ho j] at hz
        simp [localHolds, Function.update_same, hz, h0]
      · have hz := hacq j
        rw [localHolds_none ho j] at hz
        simp [localHolds, Function.update_noteq hj, hz, Option.some.injEq, Ne.symm hj]
    · intro j
      by_cases hj : j = i
      · subst hj
        have hw := hwf j
        rw [hp, localHolds_none ho j] at hw
        simp only [wfFrom, Nat.zero_add] at hw
        simp [localHolds, Function.update_same, h0]
        exact hw
      · have hw := hwf j
        rw [localHolds_none ho j] at hw
        simp [localHolds, Function.update_noteq hj, Option.some.injEq, Ne.symm hj]
        exact hw
  | lockOwn rest hp ho =>
    refine ⟨by simp, ?_, ?_⟩
    · intro j
      by_cases hj : j = i
      · subst hj
        have hz := hacq j
        rw [localHolds_self ho] at hz
        simp [localHolds, Function.update_same, hz]
      · have hz := hacq j
        rw [localHolds_other ho hj] at hz
        simp [localHolds, Function.update_noteq hj, hz, Option.some.injEq, Ne.symm hj]
    · intro j
      by_cases hj : j = i
      · subst hj
        have hw := hwf j
        rw [hp, localHolds_self ho] at hw
        simp only [wfFrom] at hw
        simp [localHolds, Function.update_same]
        exact hw
      · have hw := hwf j
        rw [localHolds_other ho hj] at hw
        simp [localHolds, Function.update_noteq hj, Option.some.injEq, Ne.symm hj]
        exact hw
  | unlockOwn rest hp ho =>
    have hw0 := hwf i
    rw [hp, localHolds_self ho] at hw0
    simp only [wfFrom, Bool.and_eq_true, decide_eq_true_eq] at hw0
    obtain ⟨hpos, hrest⟩ := hw0
    refine ⟨?_, ?_, ?_⟩
    · by_cases h1 : a.holds ≤ 1
      · simp [if_pos h1]
        omega
      · simp [if_neg h1]
        omega
    · intro j
      by_cases hj : j = i
      · subst hj
        have hz := hacq j
        rw [localHolds_self ho] at hz
        by_cases h1 : a.holds ≤ 1
        · simp [localHolds, if_pos h1, Function.update_same, hz]
          omega
        · simp [localHolds, if_neg h1, Function.update_same, hz]
      · have hz := hacq j
        rw [localHolds_other ho hj] at hz
        by_cases h1 : a.holds ≤ 1
        · simp [localHolds, if_pos h1, Function.update_noteq hj, hz]
        · simp [localHolds, if_neg h1, Function.update_noteq hj, hz,
            Option.some.injEq, Ne.symm hj]
    · intro j
      by_cases hj : j = i
      · subst hj
        by_cases h1 : a.holds ≤ 1
        · have hh : a.holds = 1 := by omega
          simp [localHolds, if_pos h1, Function.update_same, hh]
          simpa [hh] using hrest
        · simp [localHolds, if_neg h1, Function.update_same]
          exact hrest
      · have hw := hwf j
        rw [localHolds_other ho hj] at hw
        by_cases h1 : a.holds ≤ 1
        · simp [localHolds, if_pos h1, Function.update_noteq hj]
          exact hw
        · simp [localHolds, if_neg h1, Function.update_noteq hj,
            Option.some.injEq, Ne.symm hj]
          exact hw
  | unlockErr rest hp ho =>
    exfalso
    have hw := hwf i
    rw [hp] at hw
    have hl : localHolds a i = 0 := by simp [localHolds, ho]
    rw [hl] at hw
    simp [wfFrom] at hw
  | incStep rest hp =>
    refine ⟨hio, ?_, ?_⟩
    · intro j
      have h2 := hacq j
      simp only [localHolds] at h2 ⊢
      exact h2
    · intro j
      by_cases hj : j = i
      · subst hj
        have hw := hwf j
        rw [hp] at hw
        simp only [wfFrom, Bool.and_eq_true, decide_eq_true_eq, localHolds] at hw
        simp only [localHolds, Function.update_same]
        exact hw.2
      · have hw := hwf j
        simp only [localHolds] at hw
        simp only [localHolds, Function.update_noteq hj]
        exact hw
  | decStep rest hp =>
    refine ⟨hio, ?_, ?_⟩
    · intro j
      have h2 := hacq j
      simp only [localHolds] at h2 ⊢
      exact h2
    · intro j
      by_cases hj : j = i
      · subst hj
        have hw := hwf j
        rw [hp] at hw
        simp only [wfFrom, Bool.and_eq_true, decide_eq_true_eq, localHolds] at hw
        simp only [localHolds, Function.update_same]
        exact hw.2
      · have hw := hwf j
        simp only [localHolds] at hw
        simp only [localHolds, Function.update_noteq hj]
        exact hw

theorem minv_reach {n : Nat} {a b : MConf n} (h : MReach a b) (ha : MInv a) : MInv b := by
  induction h with
  | refl => exact ha
  | tail _ hstep ih =>
    obtain ⟨i, hi⟩ := hstep
    exact minv_step hi ih

theorem wfFrom_flatProg (p : Prog) : ∀ (k : Nat) (rest : List Instr),
    need p ≤ k → wfFrom rest k = true → wfFrom (flatProg p ++ rest) k = true := by
  induction p with
  | leaf =>
    intro k rest _ hr
    simpa [flatProg] using hr
  | seq a b iha ihb =>
    intro k rest hk hr
    simp only [need, max_le_iff] at hk
    simp only [flatProg, List.append_assoc]
    exact iha k _ hk.1 (ihb k rest hk.2 hr)
  | block pol body ih =>
    intro k rest hk hr
    simp only [need] at hk
    by_cases hb : isAtomicBlock pol = true
    · rw [if_pos hb] at hk
      have hkb : need body ≤ k + 1 := by omega
      have h2 : wfFrom (Instr.decI :: Instr.unlockI :: rest) (k + 1) = true := by
        simp only [wfFrom, Nat.add_sub_cancel, Bool.and_eq_true, decide_eq_true_eq]
        exact ⟨by omega, by omega, hr⟩
      have h3 := ih (k + 1) (Instr.decI :: Instr.unlockI :: rest) hkb h2
      show wfFrom (flatProg (Prog.block pol body) ++ rest) k = true
      rw [flatProg, if_pos hb]
      simp only [cliInstrs, seiInstrs, List.append_assoc, List.cons_append, List.nil_append]
      simp only [wfFrom, Bool.and_eq_true, decide_eq_true_eq]
      exact ⟨by omega, h3⟩
    · rw [if_neg hb] at hk
      have hk1 : 1 ≤ k := by omega
      have hkb : need body ≤ k - 1 := by omega
      have h2 : wfFrom (Instr.lockI :: Instr.incI :: rest) (k - 1) = true := by
        have hadd : k - 1 + 1 = k := by omega
        simp only [wfFrom, hadd, Bool.and_eq_true, decide_eq_true_eq]
        exact ⟨by omega, hr⟩
      have h3 := ih (k - 1) (Instr.lockI :: Instr.incI :: rest) hkb h2
      show wfFrom (flatProg (Prog.block pol body) ++ rest) k = true
      rw [flatProg, if_neg hb]
      simp only [cliInstrs, seiInstrs, List.append_assoc, List.cons_append, List.nil_append]
      simp only [wfFrom, Bool.and_eq_true, decide_eq_true_eq]
      exact ⟨by omega, by omega, h3⟩

/-- Claim C8 (confirmed): in the interleaving model of `n` threads running
well-nested guarded blocks over the shared recursive pthread mutex,
starting from the initial state of `atomic.c` (mutex free, counter 0):
in every reachable configuration (i) two distinct threads never both hold
an acquisition of the lock — only the reentrant owner can hold several;
(ii) a thread whose next action mutates `_atomic_count` (the increment of
`__cli` or the decrement of `__sei`) owns the mutex, with recursion depth
at least 1, so the counter is only ever mutated while the lock is held;
(iii) a thread that already owns the mutex and is about to lock again can
always step (reentrant re-acquisition never blocks). -/
theorem c8_mutual_exclusion {n : Nat} (c0 c : MConf n)
    (hown : c0.owner = none) (hholds : c0.holds = 0) (hacq0 : ∀ i, c0.acq i = 0)
    (hprogs : ∀ i, ∃ pr : Prog, need pr = 0 ∧ c0.progs i = flatProg pr)
    (hr : MReach c0 c) :
    (∀ i j : Fin n, 1 ≤ c.acq i → 1 ≤ c.acq j → i = j) ∧
    (∀ (i : Fin n) (rest : List Instr),
      c.progs i = Instr.incI :: rest ∨ c.progs i = Instr.decI :: rest →
      c.owner = some i ∧ 1 ≤ c.holds) ∧
    (∀ (i : Fin n) (rest : List Instr), c.owner = some i →
      c.progs i = Instr.lockI :: rest → ∃ d, MStep i c d) := by
  have hinv0 : MInv c0 := by
    refine ⟨⟨fun _ => hholds, fun _ => hown⟩, ?_, ?_⟩
    · intro i
      rw [hacq0 i, localHolds_none hown i]
    · intro i
      obtain ⟨pr, hneed, hflat⟩ := hprogs i
      rw [hflat, localHolds_none hown i]
      have hwfnil : wfFrom [] 0 = true := rfl
      have := wfFrom_flatProg pr 0 [] (by omega) hwfnil
      simpa using this
  obtain ⟨hio, hacq, hwf⟩ := minv_reach hr hinv0
  refine ⟨?_, ?_, ?_⟩
  · intro i j hi hj
    rw [hacq i] at hi
    rw [hacq j] at hj
    by_cases ho : c.owner = some i
    · by_cases ho2 : c.owner = some j
      · exact Option.some.inj (ho.symm.trans ho2)
      · exfalso
        simp only [localHolds, if_neg ho2] at hj
        omega
    · exfalso
      simp only [localHolds, if_neg ho] at hi
      omega
  · intro i rest hrest
    have hw := hwf i
    have hpos : 1 ≤ localHolds c i := by
      cases hrest with
      | inl h =>
        rw [h] at hw
        simp only [wfFrom, Bool.and_eq_true, decide_eq_true_eq] at hw
        exact hw.1
      | inr h =>
        rw [h] at hw
        simp only [wfFrom, Bool.and_eq_true, decide_eq_true_eq] at hw
        exact hw.1
    by_cases ho : c.owner = some i
    · refine ⟨ho, ?_⟩
      rw [localHolds_self ho] at hpos
      exact hpos
    · exfalso
      simp only [localHolds, if_neg ho] at hpos
      omega
  · intro i rest ho hp
    exact ⟨_, MStep.lockOwn i c rest hp ho⟩

/-- Claim C8 (witness): instance of `c8_mutual_exclusion` for one thread
about to run one `ATOMIC_BLOCK(ATOMIC_FORCEON)` from the initial state,
at the reflexive end of reachability. -/
theorem c8_mutual_exclusion_witness :
    (w8conf.owner = none ∧ w8conf.holds = 0 ∧ (∀ i, w8conf.acq i = 0) ∧
      (∀ i, ∃ pr : Prog, need pr = 0 ∧ w8conf.progs i = flatProg pr) ∧
      MReach w8conf w8conf) ∧
    ((∀ i j : Fin 1, 1 ≤ w8conf.acq i → 1 ≤ w8conf.acq j → i = j) ∧
     (∀ (i : Fin 1) (rest : List Instr),
       w8conf.progs i = Instr.incI :: rest ∨ w8conf.progs i = Instr.decI :: rest →
       w8conf.owner = some i ∧ 1 ≤ w8conf.holds) ∧
     (∀ (i : Fin 1) (rest : List Instr), w8conf.owner = some i →
       w8conf.progs i = Instr.lockI :: rest → ∃ d, MStep i w8conf d)) :=
  ⟨⟨rfl, rfl, fun _ => rfl,
    fun _ => ⟨Prog.block Policy.atomicForceOn Prog.leaf, rfl, rfl⟩,
    Relation.ReflTransGen.refl⟩,
   c8_mutual_exclusion w8conf w8conf rfl rfl (fun _ => rfl)
     (fun _ => ⟨Prog.block Policy.atomicForceOn Prog.leaf, rfl, rfl⟩)
     Relation.ReflTransGen.refl⟩

/-- Claim C9 (confirmed): for every entry state, the Restore-policy guard
and the corresponding Force-policy guard perform identical mutex and
counter transitions on entry and on exit (`ATOMIC_RESTORESTATE` vs
`ATOMIC_FORCEON`, and `NONATOMIC_RESTORESTATE` vs `NONATOMIC_FORCEOFF`);
the `sreg_save` byte captured at construction never influences the lock
or counter transition of `__sei`/`__cli` — it only selects whether the
diagnostic may be printed. -/
theorem c9_policy_equiv (s : AtomicState) :
    lockCount (enterBlock Policy.atomicRestore s) = lockCount (enterBlock Policy.atomicForceOn s) ∧
    lockCount (exitBlock Policy.atomicRestore s) = lockCount (exitBlock Policy.atomicForceOn s) ∧
    lockCount (enterBlock Policy.nonatomicRestore s) =
      lockCount (enterBlock Policy.nonatomicForceOff s) ∧
    lockCount (exitBlock Policy.nonatomicRestore s) =
      lockCount (exitBlock Policy.nonatomicForceOff s) ∧
    (∀ t u : Bool, lockCount (seiS t s) = lockCount (seiS u s) ∧
      lockCount (cliS t s) = lockCount (cliS u s)) := by
  have hsei : ∀ t u : Bool, lockCount (seiS t s) = lockCount (seiS u s) := by
    intro t u
    simp only [lockCount]
    rw [seiS_mutex, seiS_mutex, seiS_count, seiS_count]
  have hcli : ∀ t u : Bool, lockCount (cliS t s) = lockCount (cliS u s) := by
    intro t u
    simp only [lockCount]
    rw [cliS_mutex, cliS_mutex, cliS_count, cliS_count]
  refine ⟨?_, ?_, ?_, ?_, fun t u => ⟨hsei t u, hcli t u⟩⟩
  · show lockCount (cliS false s) = lockCount (cliS true s)
    exact hcli false true
  · show lockCount (seiS false s) = lockCount (seiS true s)
    exact hsei false true
  · show lockCount (seiS false s) = lockCount (seiS true s)
    exact hsei false true
  · show lockCount (cliS false s) = lockCount (cliS true s)
    exact hcli false true

/-- Claim C10 (confirmed): calling `__sei` with `_atomic_count = 0` (no
matching `__cli`) wraps the unsigned 32-bit counter to 4294967295 instead
of trapping; since that value is nonzero, the nesting diagnostic is
emitted exactly when the diagnostic flag is set; and a subsequent `__cli`
wraps the counter back to 0. -/
theorem c10_sei_wrap (t u : Bool) (m w : Nat) :
    (seiS t ⟨m, 0, w⟩).count = 4294967295 ∧
    (seiS t ⟨m, 0, w⟩).warnings = w + (if t = true then 1 else 0) ∧
    (cliS u (seiS t ⟨m, 0, w⟩)).count = 0 := by
  have hc : ((0 : Nat) + (A32 - 1)) % A32 = 4294967295 := by decide
  refine ⟨?_, ?_, ?_⟩
  · rw [seiS_count]
    exact hc
  · rw [seiS_warnings]
    have hnz : ¬ A32 - 1 = 0 := by decide
    cases t <;> simp [hc, hnz]
  · rw [cliS_count, seiS_count]
    show ((0 + (A32 - 1)) % A32 + 1) % A32 = 0
    decide
